import Mathlib

set_option maxHeartbeats 1000000

/-! Shallow embedding of src/extensions/mumble/src/mumble-audio.ts.

Buffers are byte lists (`List Nat`); JavaScript bitwise operators act on
signed 32-bit integers, modelled by keeping the unsigned 32-bit view as a
`Nat` and reinterpreting through `asInt32` where the JavaScript value is
observable. -/

/-- Reinterpret the unsigned 32-bit view of a value as the JavaScript signed
32-bit integer it denotes. -/
def asInt32 (u : Nat) : Int :=
  if u < 2 ^ 31 then (u : Int) else (u : Int) - 2 ^ 32

/-- ToUint32 of a JavaScript integer value: its unsigned 32-bit view. -/
def toUint32 (a : Int) : Nat :=
  (a % (2 ^ 32 : Int)).toNat

/-- JavaScript bitwise AND of a 32-bit value with a non-negative mask below
2^31: the masked low bits of the unsigned view, always non-negative. -/
def jsAndMask (a : Int) (m : Nat) : Nat :=
  toUint32 a &&& m

/-- Loop of `readVarint` (mumble-audio.ts lines 51-59): the index
`offset + bytesRead` walks consecutive bytes, so the loop is structural
recursion over the remaining bytes. `value` is the unsigned 32-bit view of
the JavaScript accumulator; a shifted byte is truncated to 32 bits with the
shift count reduced mod 32, as the JavaScript `<<` operator does. Returns
the accumulator and `bytesRead`. -/
def readVarintGo : List Nat → Nat → Nat → Nat × Nat
  | [], value, _ => (value, 0)
  | byte :: rest, value, shift =>
    let value' := value ||| ((byte &&& 0x7f) <<< (shift % 32) % 2 ^ 32)
    if byte &&& 0x80 = 0 then (value', 1)
    else
      let r := readVarintGo rest value' (shift + 7)
      (r.1, r.2 + 1)

/-- `readVarint` from mumble-audio.ts (lines 46-62): protobuf-style varint
decode starting at `offset`, returning the JavaScript (signed 32-bit) value
together with the number of bytes consumed. -/
def readVarint (buffer : List Nat) (offset : Nat) : Int × Nat :=
  let r := readVarintGo (buffer.drop offset) 0 0
  (asInt32 r.1, r.2)

/-- `writeVarint` from mumble-audio.ts (lines 67-75). The JavaScript `&`
truncates to 32 bits before masking, which for the 7-bit mask coincides with
the plain mask; `>>>= 7` acts on the unsigned 32-bit view. -/
def writeVarint (value : Nat) : List Nat :=
  if h : 0x7f < value then
    ((value &&& 0x7f) ||| 0x80) :: writeVarint ((value % 2 ^ 32) >>> 7)
  else
    [value &&& 0x7f]
termination_by value
decreasing_by
  simp only [Nat.shiftRight_eq_div_pow]
  omega

/-- `AudioCodec.CELT_Alpha` from the AudioCodec enum (mumble-audio.ts). -/
def AudioCodec.CELT_Alpha : Nat := 0

/-- `AudioCodec.Ping` from the AudioCodec enum. -/
def AudioCodec.Ping : Nat := 1

/-- `AudioCodec.Speex` from the AudioCodec enum. -/
def AudioCodec.Speex : Nat := 2

/-- `AudioCodec.CELT_Beta` from the AudioCodec enum. -/
def AudioCodec.CELT_Beta : Nat := 3

/-- `AudioCodec.Opus` from the AudioCodec enum. -/
def AudioCodec.Opus : Nat := 4

/-- `FullAudioPacket` from mumble-audio.ts; `audioData` is the byte list of
the Buffer, and the varint-decoded fields carry the JavaScript 32-bit
values. -/
structure FullAudioPacket where
  source : Int
  codec : Nat
  target : Nat
  sequence : Int
  audioData : List Nat
  isTerminator : Bool
  deriving DecidableEq, Repr

/-- `parseAudioPacket` from mumble-audio.ts (lines 80-132). `subarray` is
drop/take on the byte list. -/
def parseAudioPacket (data : List Nat) : Option FullAudioPacket :=
  if data.length < 1 then none
  else
    let header := data.headI
    let codec := (header >>> 5) &&& 0x07
    let target := header &&& 0x1f
    let session := readVarint data 1
    let offset1 := 1 + session.2
    let sequence := readVarint data offset1
    let offset2 := offset1 + sequence.2
    if codec = AudioCodec.Opus then
      let opusHeader := readVarint data offset2
      let offset3 := offset2 + opusHeader.2
      let isTerminator := jsAndMask opusHeader.1 0x2000 != 0
      let audioLength := jsAndMask opusHeader.1 0x1fff
      if offset3 + audioLength > data.length then none
      else
        some { source := session.1, codec := codec, target := target,
               sequence := sequence.1,
               audioData := (data.drop offset3).take audioLength,
               isTerminator := isTerminator }
    else
      some { source := session.1, codec := codec, target := target,
             sequence := sequence.1,
             audioData := data.drop offset2,
             isTerminator := false }

/-- Parameter record of `createAudioPacket` from mumble-audio.ts. -/
structure AudioPacketParams where
  codec : Nat
  target : Nat
  sequence : Nat
  audioData : List Nat
  isTerminator : Bool

/-- `createAudioPacket` from mumble-audio.ts (lines 137-160). -/
def createAudioPacket (params : AudioPacketParams) : List Nat :=
  let header := ((params.codec &&& 0x07) <<< 5) ||| (params.target &&& 0x1f)
  let sequenceVarint := writeVarint params.sequence
  if params.codec = AudioCodec.Opus then
    let lengthValue := params.audioData.length &&& 0x1fff
    let lengthValue' := if params.isTerminator then lengthValue ||| 0x2000 else lengthValue
    let lengthVarint := writeVarint lengthValue'
    [header] ++ sequenceVarint ++ lengthVarint ++ params.audioData
  else
    [header] ++ sequenceVarint ++ params.audioData

/-! Model of the `MumbleAudioStream` adapter (mumble-audio.ts lines 167-255)
for a single adapter instance attached to a transport socket.

A socket handler (the value of the socket's `decodeAudio` slot) is
symbolic, so that reference identity of JavaScript function objects is
constructor equality: `Handler.original` is the transport's pre-existing
`decodeAudio` method, `Handler.bound h` is the new function object created
by `h.bind(socket)`, and `Handler.patched` is the replacement closure the
adapter installs. Invocations of the transport's own pre-existing
`decodeAudio` are observed in an `originalCalls` log; packets pushed on the
adapter's `audioSubject` are observed in an `emitted` log; buffers passed to
`socket.write` are observed in a `written` log. -/

/-- A JavaScript function object sitting in the socket's `decodeAudio` slot
or in the adapter's `originalDecodeAudio` field. -/
inductive Handler where
  | original : Handler
  | bound : Handler → Handler
  | patched : Handler
  deriving DecidableEq, Repr

/-- Whether invoking this handler reaches the transport's pre-existing
`decodeAudio` (a `bind` wrapper invokes the function it wraps). -/
def Handler.callsOriginal : Handler → Bool
  | .original => true
  | .bound h => h.callsOriginal
  | .patched => false

/-- Observable state of one socket plus one adapter instance. -/
structure SystemState where
  socketHandler : Option Handler
  originalDecodeAudio : Option Handler
  sequence : Nat
  completed : Bool
  emitted : List FullAudioPacket
  originalCalls : List (List Nat)
  written : List (List Nat)
  deriving DecidableEq, Repr

/-- `hookAudioDecoding` (lines 188-216): when the socket has a `decodeAudio`
function, store its bound copy in `originalDecodeAudio` and install the
patched closure; otherwise do nothing. -/
def hookAudioDecoding (s : SystemState) : SystemState :=
  match s.socketHandler with
  | some h =>
    { s with originalDecodeAudio := some (Handler.bound h),
             socketHandler := some Handler.patched }
  | none => s

/-- The `MumbleAudioStream` constructor (lines 173-176) on a socket whose
`decodeAudio` slot holds `h0`: fresh fields, then `hookAudioDecoding`. -/
def construct (h0 : Option Handler) : SystemState :=
  hookAudioDecoding
    { socketHandler := h0, originalDecodeAudio := none, sequence := 0,
      completed := false, emitted := [], originalCalls := [], written := [] }

/-- Effect of invoking a non-patched handler on a frame: the transport's
pre-existing `decodeAudio` records the call (its internal behaviour is
outside this module); a `bind` wrapper defers to the function it wraps. -/
def runOriginal (s : SystemState) (h : Handler) (d : List Nat) : SystemState :=
  if h.callsOriginal then { s with originalCalls := s.originalCalls ++ [d] }
  else s

/-- Arrival of one raw inbound tunnel-audio frame at the socket's
`decodeAudio` slot. The patched closure (lines 203-214) parses the frame,
pushes the packet on `audioSubject` when parsing succeeds, and then invokes
the stored `originalDecodeAudio` when it is non-null. -/
def handleFrame (s : SystemState) (d : List Nat) : SystemState :=
  match s.socketHandler with
  | none => s
  | some Handler.patched =>
    let s1 :=
      match parseAudioPacket d with
      | some p => { s with emitted := s.emitted ++ [p] }
      | none => s
    match s1.originalDecodeAudio with
    | some h => runOriginal s1 h d
    | none => s1
  | some h => runOriginal s h d

/-- `Buffer.writeUInt16BE`: the two big-endian bytes of a 16-bit value. -/
def writeUInt16BE (v : Nat) : List Nat :=
  [(v >>> 8) &&& 0xff, v &&& 0xff]

/-- `Buffer.writeUInt32BE`: the four big-endian bytes of a 32-bit value. -/
def writeUInt32BE (v : Nat) : List Nat :=
  [(v >>> 24) &&& 0xff, (v >>> 16) &&& 0xff, (v >>> 8) &&& 0xff, v &&& 0xff]

/-- `sendAudio` (lines 221-241): build the packet with the post-incremented
sequence counter, prepend the 6-byte tunnel envelope (type 1, then the
packet length, both big-endian), and write the whole buffer. -/
def sendAudio (s : SystemState) (audioData : List Nat) (codec : Nat)
    (target : Nat) (isTerminator : Bool) : SystemState :=
  let packet := createAudioPacket
    { codec := codec, target := target, sequence := s.sequence,
      audioData := audioData, isTerminator := isTerminator }
  let envelope := writeUInt16BE 1 ++ writeUInt32BE packet.length
  { s with sequence := s.sequence + 1,
           written := s.written ++ [envelope ++ packet] }

/-- `destroy` (lines 246-254): complete the subject, then restore the stored
`originalDecodeAudio` into the socket's slot when it is non-null. -/
def destroy (s : SystemState) : SystemState :=
  let s1 := { s with completed := true }
  match s1.originalDecodeAudio with
  | some h => { s1 with socketHandler := some h }
  | none => s1

/-! Helper lemmas shared by the claim theorems. -/

theorem lor_shiftLeft_add (a b k : Nat) (hb : b < 2 ^ k) :
    (a <<< k) ||| b = a * 2 ^ k + b := by
  rw [Nat.shiftLeft_eq, Nat.mul_comm a (2 ^ k), ← Nat.mul_add_lt_is_or hb a]

theorem add_lor_shiftLeft (a b k : Nat) (ha : a < 2 ^ k) :
    a ||| (b <<< k) = b * 2 ^ k + a := by
  rw [Nat.lor_comm]; exact lor_shiftLeft_add b a k ha

theorem and_127 (v : Nat) : v &&& 0x7f = v % 128 := by
  have h : (0x7f : Nat) = 2 ^ 7 - 1 := by norm_num
  rw [h, Nat.and_pow_two_sub_one_eq_mod]

theorem and_bit_div (v k : Nat) : v &&& 2 ^ k = v / 2 ^ k % 2 * 2 ^ k := by
  rw [Nat.and_two_pow, Nat.testBit_to_div_mod]
  by_cases h : v / 2 ^ k % 2 = 1
  · simp [h]
  · simp [h]
    omega

theorem high_bit_zero (v : Nat) (h : v < 128) : v &&& 0x80 = 0 := by
  have h1 : (0x80 : Nat) = 2 ^ 7 := by norm_num
  rw [h1, and_bit_div]
  norm_num
  omega

theorem lor_128_eq_add (a : Nat) (h : a < 128) : a ||| 0x80 = 128 + a := by
  have h4 := add_lor_shiftLeft a 1 7 (by norm_num; omega)
  norm_num at h4
  exact h4

theorem high_bit_set (a : Nat) : ((a &&& 0x7f) ||| 0x80) &&& 0x80 ≠ 0 := by
  rw [and_127, lor_128_eq_add (a % 128) (by omega)]
  have h1 : (0x80 : Nat) = 2 ^ 7 := by norm_num
  rw [h1, and_bit_div]
  norm_num

theorem strip_high (a : Nat) : ((a &&& 0x7f) ||| 0x80) &&& 0x7f = a &&& 0x7f := by
  rw [and_127 a, lor_128_eq_add (a % 128) (by omega), and_127]
  omega

theorem writeVarint_small (v : Nat) (h : v < 128) : writeVarint v = [v] := by
  rw [writeVarint, dif_neg (by omega : ¬ 0x7f < v), and_127, Nat.mod_eq_of_lt h]

theorem writeVarint_big (v : Nat) (h : 0x7f < v) (h32 : v < 2 ^ 32) :
    writeVarint v = ((v &&& 0x7f) ||| 0x80) :: writeVarint (v >>> 7) := by
  conv_lhs => rw [writeVarint]
  rw [dif_pos h, Nat.mod_eq_of_lt h32]

theorem readVarintGo_write (v : Nat) : ∀ (rest : List Nat) (value shift : Nat),
    shift < 32 → v * 2 ^ shift < 2 ^ 31 → value < 2 ^ shift →
    readVarintGo (writeVarint v ++ rest) value shift
      = (value + v * 2 ^ shift, (writeVarint v).length) := by
  induction v using Nat.strong_induction_on with
  | _ v ih =>
    intro rest value shift hs hv hval
    have hv31 : v < 2 ^ 31 :=
      Nat.lt_of_le_of_lt
        (Nat.le_mul_of_pos_right v (Nat.pos_pow_of_pos shift (by norm_num))) hv
    by_cases h : 0x7f < v
    · have hv32 : v < 2 ^ 32 := by
        have h2 : (2 ^ 31 : Nat) < 2 ^ 32 := by norm_num
        omega
      rw [writeVarint_big v h hv32, List.cons_append, List.length_cons]
      have hstep : 2 ^ (shift + 7) = 2 ^ shift * 128 := by
        rw [pow_add]; norm_num
      have h128 : 2 ^ shift * 128 ≤ v * 2 ^ shift := by
        calc 2 ^ shift * 128 = 128 * 2 ^ shift := by ring
          _ ≤ v * 2 ^ shift := Nat.mul_le_mul_right _ (by omega)
      have hs7 : shift + 7 < 32 := by
        have h31 : 2 ^ (shift + 7) < 2 ^ 31 := by omega
        have := (Nat.pow_lt_pow_iff_right (by norm_num : 1 < 2)).mp h31
        omega
      simp only [readVarintGo]
      rw [if_neg (high_bit_set v)]
      rw [strip_high, Nat.mod_eq_of_lt hs]
      have hsh : (v &&& 0x7f) <<< shift = v % 128 * 2 ^ shift := by
        rw [and_127, Nat.shiftLeft_eq]
      have hlt32 : v % 128 * 2 ^ shift < 2 ^ 32 := by
        have h3 : v % 128 * 2 ^ shift ≤ v * 2 ^ shift := Nat.mul_le_mul_right _ (by omega)
        have h2 : (2 ^ 31 : Nat) < 2 ^ 32 := by norm_num
        omega
      rw [hsh, Nat.mod_eq_of_lt hlt32]
      have hval' : value ||| v % 128 * 2 ^ shift = value + v % 128 * 2 ^ shift := by
        have h5 := add_lor_shiftLeft value (v % 128) shift hval
        rw [Nat.shiftLeft_eq] at h5
        omega
      have hnext : v >>> 7 = v / 128 := by
        rw [Nat.shiftRight_eq_div_pow]
      rw [hval', hnext]
      have hrec := ih (v / 128) (by omega) rest (value + v % 128 * 2 ^ shift) (shift + 7) hs7
        (by
          rw [hstep]
          calc v / 128 * (2 ^ shift * 128) = v / 128 * 128 * 2 ^ shift := by ring
            _ ≤ v * 2 ^ shift := Nat.mul_le_mul_right _ (Nat.div_mul_le_self v 128)
            _ < 2 ^ 31 := hv)
        (by
          rw [hstep]
          have hm : v % 128 * 2 ^ shift ≤ 127 * 2 ^ shift := Nat.mul_le_mul_right _ (by omega)
          omega)
      rw [hrec]
      dsimp only
      have hsum : value + v % 128 * 2 ^ shift + v / 128 * 2 ^ (shift + 7)
          = value + v * 2 ^ shift := by
        rw [hstep]
        have hdm : v % 128 + 128 * (v / 128) = v := Nat.mod_add_div v 128
        calc value + v % 128 * 2 ^ shift + v / 128 * (2 ^ shift * 128)
            = value + (v % 128 + 128 * (v / 128)) * 2 ^ shift := by ring
          _ = value + v * 2 ^ shift := by rw [hdm]
      rw [hsum]
    · have hv128 : v < 128 := by omega
      rw [writeVarint_small v hv128]
      simp only [List.singleton_append, readVarintGo, List.length_singleton]
      rw [if_pos (high_bit_zero v hv128)]
      rw [Nat.mod_eq_of_lt hs, and_127, Nat.mod_eq_of_lt hv128, Nat.shiftLeft_eq]
      have hlt32 : v * 2 ^ shift < 2 ^ 32 := by
        have h2 : (2 ^ 31 : Nat) < 2 ^ 32 := by norm_num
        omega
      rw [Nat.mod_eq_of_lt hlt32]
      have h5 := add_lor_shiftLeft value v shift hval
      rw [Nat.shiftLeft_eq] at h5
      rw [h5]
      rw [Nat.add_comm (v * 2 ^ shift) value]

theorem asInt32_small (u : Nat) (h : u < 2 ^ 31) : asInt32 u = (u : Int) := by
  rw [asInt32, if_pos h]

theorem toUint32_ofNat (u : Nat) (h : u < 2 ^ 32) : toUint32 (u : Int) = u := by
  rw [toUint32]
  rw [Int.emod_eq_of_lt (by omega) (by exact_mod_cast h)]
  exact Int.toNat_ofNat u

theorem jsAndMask_ofNat (u m : Nat) (h : u < 2 ^ 32) : jsAndMask (u : Int) m = u &&& m := by
  rw [jsAndMask, toUint32_ofNat u h]

theorem readVarint_at (pre rest : List Nat) (v : Nat) (hv : v < 2 ^ 31) :
    readVarint (pre ++ (writeVarint v ++ rest)) pre.length
      = ((v : Int), (writeVarint v).length) := by
  unfold readVarint
  rw [List.drop_left]
  have h := readVarintGo_write v rest 0 0 (by norm_num) (by simpa) (by norm_num)
  norm_num at h
  rw [h]
  dsimp only
  rw [asInt32_small v hv]

theorem readVarint_at' (buf : List Nat) (off : Nat) (pre rest : List Nat) (v : Nat)
    (hbuf : buf = pre ++ (writeVarint v ++ rest)) (hoff : off = pre.length)
    (hv : v < 2 ^ 31) :
    readVarint buf off = ((v : Int), (writeVarint v).length) := by
  subst hbuf; subst hoff; exact readVarint_at pre rest v hv

theorem writeVarint_step (v b w : Nat) (h : 0x7f < v) (h32 : v < 2 ^ 32)
    (hb : (v &&& 0x7f) ||| 0x80 = b) (hw : v >>> 7 = w) :
    writeVarint v = b :: writeVarint w := by
  rw [writeVarint_big v h h32, hb, hw]

theorem writeVarint_two_pow_31 : writeVarint 2147483648 = [128, 128, 128, 128, 8] := by
  rw [writeVarint_step 2147483648 128 16777216 (by norm_num) (by norm_num) (by decide)
    (by decide)]
  rw [writeVarint_step 16777216 128 131072 (by norm_num) (by norm_num) (by decide) (by decide)]
  rw [writeVarint_step 131072 128 1024 (by norm_num) (by norm_num) (by decide) (by decide)]
  rw [writeVarint_step 1024 128 8 (by norm_num) (by norm_num) (by decide) (by decide)]
  rw [writeVarint_small 8 (by norm_num)]

theorem and_7_eq (c : Nat) (hc : c < 8) : c &&& 0x07 = c := by
  have h : (0x07 : Nat) = 2 ^ 3 - 1 := by norm_num
  rw [h, Nat.and_pow_two_sub_one_eq_mod]
  omega

theorem and_31_eq (t : Nat) (ht : t < 32) : t &&& 0x1f = t := by
  have h : (0x1f : Nat) = 2 ^ 5 - 1 := by norm_num
  rw [h, Nat.and_pow_two_sub_one_eq_mod]
  omega

theorem header_eq (c t : Nat) (hc : c < 8) (ht : t < 32) :
    ((c &&& 0x07) <<< 5) ||| (t &&& 0x1f) = c * 32 + t := by
  rw [and_7_eq c hc, and_31_eq t ht]
  have h5 : t < 2 ^ 5 := by norm_num; omega
  rw [lor_shiftLeft_add c t 5 h5]
  norm_num

theorem header_codec (c t : Nat) (hc : c < 8) (ht : t < 32) :
    ((c * 32 + t) >>> 5) &&& 0x07 = c := by
  have h1 : (c * 32 + t) >>> 5 = c := by
    rw [Nat.shiftRight_eq_div_pow]
    have h2 : (2 : Nat) ^ 5 = 32 := by norm_num
    rw [h2]
    omega
  rw [h1, and_7_eq c hc]

theorem header_target (c t : Nat) (ht : t < 32) : (c * 32 + t) &&& 0x1f = t := by
  have h : (0x1f : Nat) = 2 ^ 5 - 1 := by norm_num
  rw [h, Nat.and_pow_two_sub_one_eq_mod]
  omega

theorem parse_non_opus (c t src seq : Nat) (tail : List Nat)
    (hc : c < 8) (hc4 : c ≠ 4) (ht : t < 32) (hsrc : src < 2 ^ 31)
    (hseq : seq < 2 ^ 31) :
    parseAudioPacket ((c * 32 + t) :: (writeVarint src ++ (writeVarint seq ++ tail)))
      = some ⟨(src : Int), c, t, (seq : Int), tail, false⟩ := by
  simp only [parseAudioPacket]
  rw [if_neg (by simp : ¬ ((c * 32 + t) :: (writeVarint src ++ (writeVarint seq ++ tail))).length < 1)]
  dsimp only [List.headI]
  rw [readVarint_at' ((c * 32 + t) :: (writeVarint src ++ (writeVarint seq ++ tail))) 1
    [c * 32 + t] (writeVarint seq ++ tail) src rfl rfl hsrc]
  dsimp only
  rw [readVarint_at' ((c * 32 + t) :: (writeVarint src ++ (writeVarint seq ++ tail)))
    (1 + (writeVarint src).length) ((c * 32 + t) :: writeVarint src) tail seq
    (by simp) (by simp [Nat.add_comm]) hseq]
  dsimp only
  rw [header_codec c t hc ht, header_target c t ht]
  simp only [AudioCodec.Opus]
  rw [if_neg hc4]
  have hdrop : ((c * 32 + t) :: (writeVarint src ++ (writeVarint seq ++ tail))).drop
      (1 + (writeVarint src).length + (writeVarint seq).length) = tail := by
    rw [show (c * 32 + t) :: (writeVarint src ++ (writeVarint seq ++ tail))
        = ((c * 32 + t) :: (writeVarint src ++ writeVarint seq)) ++ tail by simp]
    exact List.drop_left' (by simp; omega)
  rw [hdrop]

theorem parse_opus_ok (t src seq L : Nat) (payload : List Nat)
    (ht : t < 32) (hsrc : src < 2 ^ 31) (hseq : seq < 2 ^ 31) (hL : L < 2 ^ 31)
    (hlen : L &&& 0x1fff ≤ payload.length) :
    parseAudioPacket
      ((4 * 32 + t) :: (writeVarint src ++ (writeVarint seq ++ (writeVarint L ++ payload))))
      = some ⟨(src : Int), 4, t, (seq : Int), payload.take (L &&& 0x1fff),
              L &&& 0x2000 != 0⟩ := by
  have hL32 : L < 2 ^ 32 := by
    have h2 : (2 ^ 31 : Nat) < 2 ^ 32 := by norm_num
    omega
  simp only [parseAudioPacket]
  rw [if_neg (by simp :
    ¬ ((4 * 32 + t) :: (writeVarint src ++ (writeVarint seq ++ (writeVarint L ++ payload)))).length < 1)]
  dsimp only [List.headI]
  rw [readVarint_at'
    ((4 * 32 + t) :: (writeVarint src ++ (writeVarint seq ++ (writeVarint L ++ payload)))) 1
    [4 * 32 + t] (writeVarint seq ++ (writeVarint L ++ payload)) src rfl rfl hsrc]
  dsimp only
  rw [readVarint_at'
    ((4 * 32 + t) :: (writeVarint src ++ (writeVarint seq ++ (writeVarint L ++ payload))))
    (1 + (writeVarint src).length) ((4 * 32 + t) :: writeVarint src)
    (writeVarint L ++ payload) seq (by simp) (by simp [Nat.add_comm]) hseq]
  dsimp only
  rw [header_codec 4 t (by norm_num) ht, header_target 4 t ht]
  simp only [AudioCodec.Opus]
  rw [if_pos trivial]
  rw [readVarint_at'
    ((4 * 32 + t) :: (writeVarint src ++ (writeVarint seq ++ (writeVarint L ++ payload))))
    (1 + (writeVarint src).length + (writeVarint seq).length)
    ((4 * 32 + t) :: (writeVarint src ++ writeVarint seq)) payload L
    (by simp) (by simp only [List.length_cons, List.length_append]; omega) hL]
  dsimp only
  rw [jsAndMask_ofNat L 0x2000 hL32, jsAndMask_ofNat L 0x1fff hL32]
  have hcond : ¬ (1 + (writeVarint src).length + (writeVarint seq).length
      + (writeVarint L).length + (L &&& 0x1fff)
      > ((4 * 32 + t) :: (writeVarint src ++ (writeVarint seq ++ (writeVarint L ++ payload)))).length) := by
    simp only [List.length_cons, List.length_append]
    omega
  rw [if_neg hcond]
  have hdrop : ((4 * 32 + t) :: (writeVarint src ++ (writeVarint seq ++ (writeVarint L ++ payload)))).drop
      (1 + (writeVarint src).length + (writeVarint seq).length + (writeVarint L).length)
      = payload := by
    rw [show (4 * 32 + t) :: (writeVarint src ++ (writeVarint seq ++ (writeVarint L ++ payload)))
        = ((4 * 32 + t) :: (writeVarint src ++ writeVarint seq ++ writeVarint L)) ++ payload
        by simp]
    exact List.drop_left' (by simp; omega)
  rw [hdrop]

theorem and_8191_eq (n : Nat) (h : n ≤ 8191) : n &&& 0x1fff = n := by
  have h1 : (0x1fff : Nat) = 2 ^ 13 - 1 := by norm_num
  rw [h1, Nat.and_pow_two_sub_one_eq_mod]
  omega

theorem and_8192_zero (n : Nat) (h : n ≤ 8191) : n &&& 0x2000 = 0 := by
  have h1 : (0x2000 : Nat) = 2 ^ 13 := by norm_num
  rw [h1, and_bit_div]
  have h2 : (2 : Nat) ^ 13 = 8192 := by norm_num
  rw [h2]
  omega

theorem lor_8192 (n : Nat) (h : n ≤ 8191) : n ||| 0x2000 = 8192 + n := by
  have h4 := add_lor_shiftLeft n 1 13 (by norm_num; omega)
  norm_num at h4
  exact h4

theorem add8192_and_8191 (n : Nat) (h : n ≤ 8191) : (8192 + n) &&& 0x1fff = n := by
  have h1 : (0x1fff : Nat) = 2 ^ 13 - 1 := by norm_num
  rw [h1, Nat.and_pow_two_sub_one_eq_mod]
  omega

theorem add8192_and_8192 (n : Nat) (h : n ≤ 8191) : (8192 + n) &&& 0x2000 = 8192 := by
  have h1 : (0x2000 : Nat) = 2 ^ 13 := by norm_num
  rw [h1, and_bit_div]
  have h2 : (2 : Nat) ^ 13 = 8192 := by norm_num
  rw [h2]
  omega

theorem createAudioPacket_opus_false (t seq : Nat) (payload : List Nat)
    (ht : t < 32) (hp : payload.length ≤ 8191) :
    createAudioPacket ⟨4, t, seq, payload, false⟩
      = (4 * 32 + t) :: (writeVarint seq ++ (writeVarint payload.length ++ payload)) := by
  simp only [createAudioPacket, AudioCodec.Opus]
  rw [header_eq 4 t (by norm_num) ht, and_8191_eq payload.length hp]
  simp [List.append_assoc]

theorem createAudioPacket_opus_true (t seq : Nat) (payload : List Nat)
    (ht : t < 32) (hp : payload.length ≤ 8191) :
    createAudioPacket ⟨4, t, seq, payload, true⟩
      = (4 * 32 + t)
        :: (writeVarint seq ++ (writeVarint (8192 + payload.length) ++ payload)) := by
  simp only [createAudioPacket, AudioCodec.Opus]
  rw [header_eq 4 t (by norm_num) ht, and_8191_eq payload.length hp,
    lor_8192 payload.length hp]
  simp [List.append_assoc]

theorem createAudioPacket_other (c t seq : Nat) (payload : List Nat) (it : Bool)
    (hc : c < 8) (hc4 : c ≠ 4) (ht : t < 32) :
    createAudioPacket ⟨c, t, seq, payload, it⟩
      = (c * 32 + t) :: (writeVarint seq ++ payload) := by
  simp only [createAudioPacket, AudioCodec.Opus]
  rw [if_neg hc4, header_eq c t hc ht]
  simp [List.append_assoc]

/-- C1 (amended): createAudioPacket writes no source varint, so the round
trip holds only after an encoded source is inserted between the header byte
and the remainder of the built packet; under the validity bounds on the
fields, parsing that byte sequence reproduces source, codec, target,
sequence, payload and isTerminator exactly. -/
theorem claim_C1_amended (c t seq src : Nat) (payload : List Nat) (it : Bool)
    (hc : c < 8) (ht : t < 32) (hseq : seq < 2 ^ 31) (hsrc : src < 2 ^ 31)
    (hlen : c = 4 → payload.length ≤ 0x1fff) (hterm : c ≠ 4 → it = false) :
    parseAudioPacket
      ((createAudioPacket ⟨c, t, seq, payload, it⟩).take 1
        ++ (writeVarint src ++ (createAudioPacket ⟨c, t, seq, payload, it⟩).drop 1))
      = some ⟨(src : Int), c, t, (seq : Int), payload, it⟩ := by
  by_cases h4 : c = 4
  · subst h4
    have hp : payload.length ≤ 8191 := by
      have h1 := hlen rfl
      omega
    cases it with
    | false =>
      rw [createAudioPacket_opus_false t seq payload ht hp]
      simp only [List.take_succ_cons, List.take_zero, List.singleton_append,
        List.drop_succ_cons, List.drop_zero]
      rw [parse_opus_ok t src seq payload.length payload ht hsrc hseq (by omega)
        (by rw [and_8191_eq payload.length hp])]
      rw [and_8191_eq payload.length hp, List.take_length, and_8192_zero payload.length hp]
      rfl
    | true =>
      rw [createAudioPacket_opus_true t seq payload ht hp]
      simp only [List.take_succ_cons, List.take_zero, List.singleton_append,
        List.drop_succ_cons, List.drop_zero]
      rw [parse_opus_ok t src seq (8192 + payload.length) payload ht hsrc hseq (by omega)
        (by rw [add8192_and_8191 payload.length hp])]
      rw [add8192_and_8191 payload.length hp, List.take_length,
        add8192_and_8192 payload.length hp]
      rfl
  · have hit := hterm h4
    subst hit
    rw [createAudioPacket_other c t seq payload false hc h4 ht]
    simp only [List.take_succ_cons, List.take_zero, List.singleton_append,
      List.drop_succ_cons, List.drop_zero]
    rw [parse_non_opus c t src seq payload hc h4 ht hsrc hseq]

/-- C1 (counterexample): parsing the bytes built by createAudioPacket for
the valid tuple (Opus, target 0, sequence 2, payload [0xAA], terminator
false) yields none instead of a packet reproducing the fields: the built
packet carries no source varint, so the parser misaligns and treats the
first payload byte as a length varint. -/
theorem claim_C1_counterexample :
    parseAudioPacket (createAudioPacket ⟨4, 0, 2, [0xAA], false⟩) = none := by
  rw [createAudioPacket_opus_false 0 2 [0xAA] (by norm_num) (by norm_num)]
  simp only [List.length_singleton]
  rw [writeVarint_small 2 (by norm_num), writeVarint_small 1 (by norm_num)]
  decide

/-- C1 witness: the amended round trip evaluated at the concrete tuple
(Opus, target 1, sequence 5, source 9, payload [1, 2], terminator true). -/
theorem claim_C1_witness :
    parseAudioPacket ((createAudioPacket ⟨4, 1, 5, [1, 2], true⟩).take 1
      ++ (writeVarint 9 ++ (createAudioPacket ⟨4, 1, 5, [1, 2], true⟩).drop 1))
      = some ⟨(9 : Int), 4, 1, (5 : Int), [1, 2], true⟩ :=
  claim_C1_amended 4 1 5 9 [1, 2] true (by norm_num) (by norm_num) (by norm_num)
    (by norm_num) (fun _ => by norm_num) (fun h => absurd rfl h)

/-- C2 (counterexample): at v = 2^31, a value inside the 32-bit unsigned
range the spec names as supported, decoding the encoding does not return v:
the JavaScript left shift is signed, so the decoder yields -2^31. -/
theorem claim_C2_counterexample :
    readVarint (writeVarint 2147483648) 0
      ≠ ((2147483648 : Int), (writeVarint 2147483648).length) := by
  rw [writeVarint_two_pow_31]
  decide

/-- C2 (amended): for every v below 2^31, decoding the bytes produced by
writeVarint at offset 0 yields exactly (v, length of the encoding). -/
theorem claim_C2_roundtrip (v : Nat) (hv : v < 2 ^ 31) :
    readVarint (writeVarint v) 0 = ((v : Int), (writeVarint v).length) := by
  have h := readVarint_at [] [] v hv
  simpa using h

/-- C2 witness: the amended round trip evaluated at v = 300. -/
theorem claim_C2_roundtrip_witness :
    readVarint (writeVarint 300) 0 = ((300 : Int), (writeVarint 300).length) :=
  claim_C2_roundtrip 300 (by norm_num)

theorem runOriginal_sequence (s : SystemState) (h : Handler) (d : List Nat) :
    (runOriginal s h d).sequence = s.sequence := by
  unfold runOriginal
  split <;> rfl

theorem runOriginal_emitted (s : SystemState) (h : Handler) (d : List Nat) :
    (runOriginal s h d).emitted = s.emitted := by
  unfold runOriginal
  split <;> rfl

theorem runOriginal_calls (s : SystemState) (h : Handler) (d : List Nat)
    (hh : h.callsOriginal = true) :
    (runOriginal s h d).originalCalls = s.originalCalls ++ [d] := by
  unfold runOriginal
  rw [hh]
  simp

theorem handleFrame_sequence (s : SystemState) (d : List Nat) :
    (handleFrame s d).sequence = s.sequence := by
  unfold handleFrame
  cases hs : s.socketHandler with
  | none => rfl
  | some h =>
    cases h with
    | original => rw [runOriginal_sequence]
    | bound h' => rw [runOriginal_sequence]
    | patched =>
      cases hp : parseAudioPacket d <;>
        cases ho : s.originalDecodeAudio <;>
          simp [ho, runOriginal_sequence]

theorem destroy_sequence (s : SystemState) : (destroy s).sequence = s.sequence := by
  unfold destroy
  cases ho : s.originalDecodeAudio <;> rfl

/-- C5: with the adapter attached (patched handler installed, the stored
original reaching the transport's own decodeAudio), every inbound frame is
forwarded to the original handler exactly once with the identical raw
bytes, whether or not decoding succeeds; a frame on which parseAudioPacket
returns none produces no event on the adapter's subscription, and a frame
that parses produces exactly that one packet. -/
theorem claim_C5_dual_delivery (s : SystemState) (d : List Nat) (h : Handler)
    (hs : s.socketHandler = some Handler.patched)
    (ho : s.originalDecodeAudio = some h) (hh : h.callsOriginal = true) :
    (handleFrame s d).originalCalls = s.originalCalls ++ [d]
    ∧ (parseAudioPacket d = none → (handleFrame s d).emitted = s.emitted)
    ∧ (∀ p, parseAudioPacket d = some p →
        (handleFrame s d).emitted = s.emitted ++ [p]) := by
  unfold handleFrame
  rw [hs]
  cases hp : parseAudioPacket d with
  | none =>
    refine ⟨?_, fun _ => ?_, fun p hp2 => absurd hp2 (by simp)⟩
    · dsimp only
      simp only [ho]
      rw [runOriginal_calls s h d hh]
    · dsimp only
      simp only [ho]
      rw [runOriginal_emitted]
  | some p =>
    refine ⟨?_, fun hn => absurd hn (by simp), fun q hq => ?_⟩
    · dsimp only
      simp only [ho]
      rw [runOriginal_calls _ h d hh]
    · cases hq
      dsimp only
      simp only [ho]
      rw [runOriginal_emitted]

/-- C5 witness: the attached adapter built on the transport's original
handler, receiving the empty frame (which fails to decode): the frame is
forwarded to the original handler and no event is emitted. -/
theorem claim_C5_witness :
    (handleFrame (construct (some Handler.original)) []).originalCalls
        = (construct (some Handler.original)).originalCalls ++ [[]]
    ∧ (handleFrame (construct (some Handler.original)) []).emitted
        = (construct (some Handler.original)).emitted :=
  ⟨(claim_C5_dual_delivery (construct (some Handler.original)) []
      (Handler.bound Handler.original) rfl rfl rfl).1,
   (claim_C5_dual_delivery (construct (some Handler.original)) []
      (Handler.bound Handler.original) rfl rfl rfl).2.1 rfl⟩

/-- C6: every send writes exactly one buffer to the transport: a 6-byte
envelope whose first two bytes are the big-endian message type 1 and whose
next four bytes are the big-endian byte length of the audio packet,
immediately followed by the packet built by createAudioPacket with the
adapter's current sequence number. -/
theorem claim_C6_envelope (s : SystemState) (a : List Nat) (c t : Nat) (b : Bool)
    (hL : (createAudioPacket ⟨c, t, s.sequence, a, b⟩).length < 2 ^ 32) :
    ∃ e0 e1 e2 e3 e4 e5,
      (sendAudio s a c t b).written
        = s.written
          ++ [e0 :: e1 :: e2 :: e3 :: e4 :: e5
                :: createAudioPacket ⟨c, t, s.sequence, a, b⟩]
      ∧ e0 < 256 ∧ e1 < 256 ∧ e2 < 256 ∧ e3 < 256 ∧ e4 < 256 ∧ e5 < 256
      ∧ e0 * 256 + e1 = 1
      ∧ ((e2 * 256 + e3) * 256 + e4) * 256 + e5
          = (createAudioPacket ⟨c, t, s.sequence, a, b⟩).length := by
  have hmask : ∀ x : Nat, x &&& 255 = x % 256 := by
    intro x
    have h8 : (255 : Nat) = 2 ^ 8 - 1 := by norm_num
    rw [h8, Nat.and_pow_two_sub_one_eq_mod]
  set L := (createAudioPacket ⟨c, t, s.sequence, a, b⟩).length with hLdef
  refine ⟨0, 1, (L >>> 24) &&& 255, (L >>> 16) &&& 255, (L >>> 8) &&& 255, L &&& 255,
    ?_, by norm_num, by norm_num, ?_, ?_, ?_, ?_, by norm_num, ?_⟩
  · show (sendAudio s a c t b).written = _
    unfold sendAudio
    dsimp only
    rw [← hLdef]
    simp [writeUInt16BE, writeUInt32BE]
  · rw [hmask]; omega
  · rw [hmask]; omega
  · rw [hmask]; omega
  · rw [hmask]; omega
  · rw [hmask, hmask, hmask, hmask]
    rw [Nat.shiftRight_eq_div_pow, Nat.shiftRight_eq_div_pow, Nat.shiftRight_eq_div_pow]
    have h24 : (2 : Nat) ^ 24 = 16777216 := by norm_num
    have h16 : (2 : Nat) ^ 16 = 65536 := by norm_num
    have h8 : (2 : Nat) ^ 8 = 256 := by norm_num
    rw [h24, h16, h8]
    omega

/-- C6 witness: the envelope property evaluated for a fresh adapter sending
one CELT-Alpha packet [5]. -/
theorem claim_C6_witness :
    ∃ e0 e1 e2 e3 e4 e5,
      (sendAudio (construct none) [5] 0 0 false).written
        = (construct none).written
          ++ [e0 :: e1 :: e2 :: e3 :: e4 :: e5
                :: createAudioPacket ⟨0, 0, (construct none).sequence, [5], false⟩]
      ∧ e0 < 256 ∧ e1 < 256 ∧ e2 < 256 ∧ e3 < 256 ∧ e4 < 256 ∧ e5 < 256
      ∧ e0 * 256 + e1 = 1
      ∧ ((e2 * 256 + e3) * 256 + e4) * 256 + e5
          = (createAudioPacket ⟨0, 0, (construct none).sequence, [5], false⟩).length :=
  claim_C6_envelope (construct none) [5] 0 0 false (by
    rw [show (construct none).sequence = 0 from rfl]
    rw [createAudioPacket_other 0 0 0 [5] false (by norm_num) (by norm_num) (by norm_num)]
    rw [writeVarint_small 0 (by norm_num)]
    norm_num)

/-- C7: the outbound sequence counter starts at 0 at construction; each send
builds its packet with the current counter value and increments the counter
by exactly one, so after n sends from a fresh adapter the counter is n (the
n-th send used n-1); inbound frame handling and destroy never change the
counter, and only constructing a new instance yields 0 again. -/
theorem claim_C7_sequence_counter :
    (∀ h0 : Option Handler, (construct h0).sequence = 0)
    ∧ (∀ (s : SystemState) (a : List Nat) (c t : Nat) (b : Bool),
        (sendAudio s a c t b).sequence = s.sequence + 1
        ∧ (sendAudio s a c t b).written
            = s.written
              ++ [(writeUInt16BE 1
                    ++ writeUInt32BE (createAudioPacket ⟨c, t, s.sequence, a, b⟩).length)
                  ++ createAudioPacket ⟨c, t, s.sequence, a, b⟩])
    ∧ (∀ (s : SystemState) (d : List Nat), (handleFrame s d).sequence = s.sequence)
    ∧ (∀ s : SystemState, (destroy s).sequence = s.sequence)
    ∧ (∀ (h0 : Option Handler) (a : List Nat) (c t : Nat) (b : Bool) (n : Nat),
        (List.foldl (fun s _ => sendAudio s a c t b) (construct h0)
          (List.range n)).sequence = n) := by
  refine ⟨?_, ?_, handleFrame_sequence, destroy_sequence, ?_⟩
  · intro h0; cases h0 <;> rfl
  · intro s a c t b; exact ⟨rfl, rfl⟩
  · intro h0 a c t b n
    have hstep : ∀ s : SystemState, (sendAudio s a c t b).sequence = s.sequence + 1 :=
      fun s => rfl
    induction n with
    | zero =>
      simp only [List.range_zero, List.foldl_nil]
      cases h0 <;> rfl
    | succ n ih =>
      rw [List.range_succ, List.foldl_append]
      simp only [List.foldl_cons, List.foldl_nil]
      rw [hstep, ih]

/-- C8 (counterexample): after destroy, the socket's inbound handler is not
reference-identical to the pre-construction handler: hookAudioDecoding
stored the bound copy produced by Function.prototype.bind, a distinct
function object, and destroy restores that copy. -/
theorem claim_C8_counterexample :
    (destroy (construct (some Handler.original))).socketHandler
      ≠ some Handler.original := by
  decide

/-- C8 (amended): after destroy the socket's inbound handler is the bound
copy of the pre-construction handler that hookAudioDecoding stored: a
distinct function object, but behaviourally identical to the original on
every frame; a second destroy does not throw and leaves the state, in
particular the handler, unchanged. -/
theorem claim_C8_destroy (h0 : Handler) :
    (destroy (construct (some h0))).socketHandler = some (Handler.bound h0)
    ∧ Handler.bound h0 ≠ h0
    ∧ (∀ (s : SystemState) (d : List Nat),
        runOriginal s (Handler.bound h0) d = runOriginal s h0 d)
    ∧ destroy (destroy (construct (some h0))) = destroy (construct (some h0)) := by
  refine ⟨rfl, ?_, ?_, rfl⟩
  · intro he
    have hsz := congrArg sizeOf he
    simp at hsz
  · intro s d
    unfold runOriginal
    rfl



theorem createAudioPacket_opus_overflow (t seq : Nat) (payload : List Nat)
    (ht : t < 32) (hp : payload.length = 8192) :
    createAudioPacket ⟨4, t, seq, payload, false⟩
      = (4 * 32 + t) :: (writeVarint seq ++ (writeVarint 0 ++ payload)) := by
  simp only [createAudioPacket, AudioCodec.Opus]
  rw [header_eq 4 t (by norm_num) ht, hp]
  rw [show (8192 : Nat) &&& 0x1fff = 0 from by decide]
  simp only [Bool.false_eq_true, if_false, List.cons_append, List.nil_append,
    List.append_assoc]
  rw [if_pos trivial]

/-- C3 (code bug): for an Opus payload of 8192 bytes (one past the 13-bit
budget) createAudioPacket silently truncates the length field to
8192 &&& 0x1fff = 0 while still appending all 8192 payload bytes, and
sendAudio writes exactly those lying bytes to the transport and completes
normally: no PayloadTooLarge error path exists anywhere in the module. -/
theorem claim_C3_payload_truncation :
    createAudioPacket ⟨4, 0, 0, List.replicate 8192 1, false⟩
        = 128 :: (0 :: (0 :: List.replicate 8192 1))
    ∧ (sendAudio (construct (some Handler.original))
        (List.replicate 8192 1) 4 0 false).written
        = [[0, 1, 0, 0, 32, 3] ++ (128 :: (0 :: (0 :: List.replicate 8192 1)))] := by
  have hpkt : createAudioPacket ⟨4, 0, 0, List.replicate 8192 1, false⟩
      = 128 :: (0 :: (0 :: List.replicate 8192 1)) := by
    have h := createAudioPacket_opus_overflow 0 0 (List.replicate 8192 1) (by norm_num)
      (by rw [List.length_replicate])
    rw [writeVarint_small 0 (by norm_num)] at h
    rw [show (4 * 32 + 0 : Nat) = 128 from by norm_num] at h
    rw [List.singleton_append, List.singleton_append] at h
    exact h
  refine ⟨hpkt, ?_⟩
  unfold sendAudio
  dsimp only
  rw [show (construct (some Handler.original)).sequence = 0 from rfl]
  rw [hpkt]
  rw [List.length_cons, List.length_cons, List.length_cons, List.length_replicate]
  rw [show (8192 + 1 + 1 + 1 : Nat) = 8195 from by norm_num]
  rw [show writeUInt16BE 1 = [0, 1] from by decide]
  rw [show writeUInt32BE 8195 = [0, 0, 32, 3] from by decide]
  rw [show (construct (some Handler.original)).written = [] from rfl]
  rw [show ([0, 1] ++ [0, 0, 32, 3] : List Nat) = [0, 1, 0, 0, 32, 3] from rfl]
  rw [List.nil_append]

theorem readVarintGo_le : ∀ (l : List Nat) (value shift : Nat),
    (readVarintGo l value shift).2 ≤ l.length
  | [], _, _ => Nat.le_refl 0
  | b :: l, value, shift => by
    simp only [readVarintGo]
    split
    · simp
    · dsimp only
      have h := readVarintGo_le l (value ||| ((b &&& 0x7f) <<< (shift % 32) % 2 ^ 32))
        (shift + 7)
      simp only [List.length_cons]
      omega

theorem readVarintGo_pos (b : Nat) (l : List Nat) (value shift : Nat) :
    1 ≤ (readVarintGo (b :: l) value shift).2 := by
  simp only [readVarintGo]
  split
  · simp
  · dsimp only
    omega

theorem readVarintGo_stop : ∀ (l : List Nat) (value shift : Nat),
    (readVarintGo l value shift).2 = l.length
    ∨ (1 ≤ (readVarintGo l value shift).2
        ∧ l.getD ((readVarintGo l value shift).2 - 1) 0 &&& 0x80 = 0)
  | [], _, _ => Or.inl rfl
  | b :: l, value, shift => by
    simp only [readVarintGo]
    split
    case isTrue h => exact Or.inr ⟨by simp, by simpa using h⟩
    case isFalse h =>
      dsimp only
      rcases readVarintGo_stop l (value ||| ((b &&& 0x7f) <<< (shift % 32) % 2 ^ 32))
        (shift + 7) with h1 | ⟨hpos, hb⟩
      · left
        simp only [List.length_cons]
        omega
      · right
        refine ⟨by omega, ?_⟩
        have hidx : (readVarintGo l (value ||| ((b &&& 0x7f) <<< (shift % 32) % 2 ^ 32))
            (shift + 7)).2 + 1 - 1
            = ((readVarintGo l (value ||| ((b &&& 0x7f) <<< (shift % 32) % 2 ^ 32))
                (shift + 7)).2 - 1) + 1 := by omega
        rw [hidx, List.getD_cons_succ]
        exact hb

theorem readVarintGo_take : ∀ (l : List Nat) (value shift : Nat),
    readVarintGo (l.take (readVarintGo l value shift).2) value shift
      = readVarintGo l value shift
  | [], _, _ => rfl
  | b :: l, value, shift => by
    conv_lhs => rw [readVarintGo]
    simp only [readVarintGo]
    split
    case isTrue h =>
      simp only [List.take_succ_cons, List.take_zero, readVarintGo]
      rw [if_pos h]
    case isFalse h =>
      dsimp only
      simp only [List.take_succ_cons, readVarintGo]
      rw [if_neg h]
      rw [readVarintGo_take l (value ||| ((b &&& 0x7f) <<< (shift % 32) % 2 ^ 32)) (shift + 7)]

/-- C9: readVarint is total and lenient: it never consumes more bytes than
remain after the offset, it stops either by exhausting the buffer or right
after a byte whose high bit is 0, and its result is computed from exactly
the bytes it consumed (so on a truncated buffer it returns the partially
accumulated value with the count of bytes actually read instead of
failing). -/
theorem claim_C9_lenient_decode (buffer : List Nat) (offset : Nat) :
    (readVarint buffer offset).2 ≤ buffer.length - offset
    ∧ (buffer.length ≤ offset + (readVarint buffer offset).2
        ∨ (1 ≤ (readVarint buffer offset).2
            ∧ buffer.getD (offset + (readVarint buffer offset).2 - 1) 0 &&& 0x80 = 0))
    ∧ readVarint (buffer.take (offset + (readVarint buffer offset).2)) offset
        = readVarint buffer offset := by
  refine ⟨?_, ?_, ?_⟩
  · unfold readVarint
    dsimp only
    have h := readVarintGo_le (buffer.drop offset) 0 0
    simpa [List.length_drop] using h
  · unfold readVarint
    dsimp only
    rcases readVarintGo_stop (buffer.drop offset) 0 0 with h1 | ⟨hpos, hb⟩
    · left
      rw [List.length_drop] at h1
      omega
    · right
      refine ⟨hpos, ?_⟩
      have hgd : (buffer.drop offset).getD ((readVarintGo (buffer.drop offset) 0 0).2 - 1) 0
          = buffer.getD (offset + (readVarintGo (buffer.drop offset) 0 0).2 - 1) 0 := by
        rw [List.getD_eq_getElem?_getD, List.getD_eq_getElem?_getD, List.getElem?_drop]
        have hi : offset + ((readVarintGo (buffer.drop offset) 0 0).2 - 1)
            = offset + (readVarintGo (buffer.drop offset) 0 0).2 - 1 := by omega
        rw [hi]
      rw [← hgd]
      exact hb
  · unfold readVarint
    dsimp only
    rw [List.drop_take]
    have hsub : offset + (readVarintGo (buffer.drop offset) 0 0).2 - offset
        = (readVarintGo (buffer.drop offset) 0 0).2 := by omega
    rw [hsub, readVarintGo_take]

/-- C10: readVarint at an offset at or past the end of the buffer reads
nothing and returns value 0 with bytesRead 0; bytesRead never exceeds the
bytes remaining after the offset; consequently parseAudioPacket on a
single-byte input with a non-Opus codec tag returns a packet with source 0,
sequence 0 and an empty payload. -/
theorem claim_C10_offset_past_end :
    (∀ (buffer : List Nat) (offset : Nat), buffer.length ≤ offset →
        readVarint buffer offset = ((0 : Int), 0))
    ∧ (∀ (buffer : List Nat) (offset : Nat),
        (readVarint buffer offset).2 ≤ buffer.length - offset)
    ∧ (∀ b : Nat, (b >>> 5) &&& 0x07 ≠ 4 →
        parseAudioPacket [b]
          = some ⟨0, (b >>> 5) &&& 0x07, b &&& 0x1f, 0, [], false⟩) := by
  have hpast : ∀ (buffer : List Nat) (offset : Nat), buffer.length ≤ offset →
      readVarint buffer offset = ((0 : Int), 0) := by
    intro buffer offset h
    unfold readVarint
    rw [List.drop_eq_nil_of_le h]
    rfl
  refine ⟨hpast, ?_, ?_⟩
  · intro buffer offset
    unfold readVarint
    dsimp only
    have h := readVarintGo_le (buffer.drop offset) 0 0
    simpa [List.length_drop] using h
  · intro b hb
    simp only [parseAudioPacket]
    rw [if_neg (by simp)]
    dsimp only [List.headI]
    rw [hpast [b] 1 (by simp)]
    dsimp only
    simp only [AudioCodec.Opus]
    rw [if_neg hb]
    rfl

/-- C10 witness: the three parts evaluated at offset 5 past the end of a
2-byte buffer, at a 1-byte buffer, and at the single-byte input 0x21
(codec tag 1 = Ping, target 1). -/
theorem claim_C10_witness :
    readVarint [1, 2] 5 = ((0 : Int), 0)
    ∧ (readVarint [9] 0).2 ≤ [9].length - 0
    ∧ parseAudioPacket [0x21] = some ⟨0, 1, 1, 0, [], false⟩ :=
  ⟨claim_C10_offset_past_end.1 [1, 2] 5 (by norm_num),
   claim_C10_offset_past_end.2.1 [9] 0,
   claim_C10_offset_past_end.2.2 0x21 (by decide)⟩

/-- C4: parseAudioPacket returns none exactly when the input is empty, or
when the codec tag is Opus and the declared 13-bit payload length exceeds
the bytes remaining after the length varint; every other input, in
particular every non-empty input with a non-Opus codec tag, yields a
packet. -/
theorem claim_C4_parse_none_iff (data : List Nat) :
    parseAudioPacket data = none
      ↔ data = []
        ∨ ((data.headI >>> 5) &&& 0x07 = 4
            ∧ data.length
                - (1 + (readVarint data 1).2
                    + (readVarint data (1 + (readVarint data 1).2)).2
                    + (readVarint data (1 + (readVarint data 1).2
                        + (readVarint data (1 + (readVarint data 1).2)).2)).2)
              < jsAndMask (readVarint data (1 + (readVarint data 1).2
                    + (readVarint data (1 + (readVarint data 1).2)).2)).1 0x1fff) := by
  have hb : ∀ k, (readVarint data k).2 ≤ data.length - k := by
    intro k
    unfold readVarint
    dsimp only
    have h := readVarintGo_le (data.drop k) 0 0
    simpa [List.length_drop] using h
  cases data with
  | nil => simp [parseAudioPacket]
  | cons d ds =>
    simp only [parseAudioPacket]
    rw [if_neg (by simp)]
    dsimp only [List.headI]
    simp only [AudioCodec.Opus]
    by_cases hc : (d >>> 5) &&& 0x07 = 4
    · rw [if_pos hc]
      have h1 := hb 1
      have h2 := hb (1 + (readVarint (d :: ds) 1).2)
      have h3 := hb (1 + (readVarint (d :: ds) 1).2
        + (readVarint (d :: ds) (1 + (readVarint (d :: ds) 1).2)).2)
      by_cases hC : 1 + (readVarint (d :: ds) 1).2
          + (readVarint (d :: ds) (1 + (readVarint (d :: ds) 1).2)).2
          + (readVarint (d :: ds) (1 + (readVarint (d :: ds) 1).2
              + (readVarint (d :: ds) (1 + (readVarint (d :: ds) 1).2)).2)).2
          + jsAndMask (readVarint (d :: ds) (1 + (readVarint (d :: ds) 1).2
              + (readVarint (d :: ds) (1 + (readVarint (d :: ds) 1).2)).2)).1 0x1fff
          > (d :: ds).length
      · rw [if_pos hC]
        simp only [List.length_cons] at h1 h2 h3 hC
        constructor
        · intro _
          right
          refine ⟨hc, ?_⟩
          simp only [List.length_cons]
          omega
        · intro _
          rfl
      · rw [if_neg hC]
        simp only [List.length_cons] at h1 h2 h3 hC
        constructor
        · intro hsome
          cases hsome
        · rintro (hnil | ⟨_, hlen⟩)
          · cases hnil
          · simp only [List.length_cons] at hlen
            omega
    · rw [if_neg hc]
      constructor
      · intro hsome
        cases hsome
      · rintro (hnil | ⟨hcc, _⟩)
        · cases hnil
        · exact absurd hcc hc
